import Mathlib

/-
Verification of the RCTab usage-function core: the usage-record model
(`utils/models.py`), the Normalizer / Compressor / Transmitter pipeline
(`utils/usage.py`) and the scheduled job drivers
(`usage/__init__.py`, `monthly_usage/__init__.py`).

Python floats are modelled as rationals; optional fields as `Option`;
pydantic validation failures and raised exceptions as `Option`/sum results.
-/

namespace RCTab

/-- Shallow embedding of the pydantic `Usage` model of `utils/models.py`.
Strings stay strings, `UUID` is modelled as a string, dates as natural
numbers (day ordinals), floats as rationals and the `tags` dict as an
association list.  The `cost >= 0` constraint of `confloat(ge=0.0)` is
enforced by the constructor model `normalizeRaw` below, not by the type. -/
structure Usage where
  id : String
  name : Option String := none
  type : Option String := none
  tags : Option (List (String × String)) := none
  billing_account_id : Option String := none
  billing_account_name : Option String := none
  billing_period_start_date : Option Nat := none
  billing_period_end_date : Option Nat := none
  billing_profile_id : Option String := none
  billing_profile_name : Option String := none
  account_owner_id : Option String := none
  account_name : Option String := none
  subscription_id : String
  subscription_name : Option String := none
  date : Nat
  product : Option String := none
  part_number : Option String := none
  meter_id : Option String := none
  quantity : Option ℚ := none
  effective_price : Option ℚ := none
  cost : ℚ
  amortised_cost : Option ℚ := none
  total_cost : Option ℚ := none
  unit_price : Option ℚ := none
  billing_currency : Option String := none
  resource_location : Option String := none
  consumed_service : Option String := none
  resource_id : Option String := none
  resource_name : Option String := none
  service_info1 : Option String := none
  service_info2 : Option String := none
  additional_info : Option String := none
  invoice_section : Option String := none
  cost_center : Option String := none
  resource_group : Option String := none
  reservation_id : Option String := none
  reservation_name : Option String := none
  product_order_id : Option String := none
  offer_id : Option String := none
  is_azure_credit_eligible : Option Bool := none
  term : Option String := none
  publisher_name : Option String := none
  publisher_type : Option String := none
  plan_name : Option String := none
  charge_type : Option String := none
  frequency : Option String := none
  monthly_upload : Option Nat := none
deriving DecidableEq, Repr

/-- The merge key of `compress_items`: `model_dump(exclude=combinable_fields)`
with `combinable_fields = {cost, amortised_cost, total_cost, quantity}`.
Two records have equal dumps-without-those-fields exactly when they become
equal after those four fields are reset to fixed values. -/
def mergeKey (u : Usage) : Usage :=
  { u with cost := 0, amortised_cost := none, total_cost := none, quantity := none }

/-- Embedding of `combine_items` (utils/usage.py lines 89-106): the five
optional fields are summed with `(x or 0)` null-coalescing and `cost` is
summed directly.  The Python function mutates `item_to_update` in place;
here we return the updated value. -/
def combine_items (item_to_update other_item : Usage) : Usage :=
  { item_to_update with
    quantity := some (item_to_update.quantity.getD 0 + other_item.quantity.getD 0),
    effective_price :=
      some (item_to_update.effective_price.getD 0 + other_item.effective_price.getD 0),
    amortised_cost :=
      some (item_to_update.amortised_cost.getD 0 + other_item.amortised_cost.getD 0),
    total_cost := some (item_to_update.total_cost.getD 0 + other_item.total_cost.getD 0),
    unit_price := some (item_to_update.unit_price.getD 0 + other_item.unit_price.getD 0),
    cost := item_to_update.cost + other_item.cost }

/-- One step of the `compress_items` loop body: scan the output list for the
first record whose merge key matches `item`; combine in place at that
position, otherwise append (a deep copy of) `item` at the end. -/
def insertItem (item : Usage) : List Usage → List Usage
  | [] => [item]
  | r :: rs =>
    if mergeKey r = mergeKey item then combine_items r item :: rs
    else r :: insertItem item rs

/-- Embedding of `compress_items` (utils/usage.py lines 109-140). -/
def compress_items (items : List Usage) : List Usage :=
  items.foldl (fun acc i => insertItem i acc) []

/-- Embedding of the per-row work of `retrieve_usage` (utils/usage.py lines
159-178): a raw source row carries the same field shape as `Usage`
(`vars(item)`), `total_cost` is overwritten with the row's `cost`, the
record is constructed (pydantic rejects a negative `cost`, modelled as
`none`) and then the reservation split is applied. -/
def normalizeRaw (raw : Usage) : Option Usage :=
  if raw.cost < 0 then none
  else
    some
      (match raw.reservation_id with
       | some _ =>
         { raw with total_cost := some raw.cost, amortised_cost := some raw.cost, cost := 0 }
       | none => { raw with total_cost := some raw.cost, amortised_cost := some 0 })

/-- The row loop of `retrieve_usage`: normalize every row in order; a
pydantic validation failure (negative cost) aborts the whole call. -/
def normalizeAll : List Usage → Option (List Usage)
  | [] => some []
  | r :: rs =>
    match normalizeRaw r with
    | none => none
    | some n => (normalizeAll rs).map (fun ns => n :: ns)

/-- Embedding of `retrieve_usage` (utils/usage.py lines 143-188): normalize
every row and compress the result. -/
def retrieve_usage (rows : List Usage) : Option (List Usage) :=
  (normalizeAll rows).map compress_items

/-- A concrete record used by the witnesses and counterexamples: the minimal
required fields (`id`, `subscription_id`, `date`, `cost`), everything else
at its pydantic default. -/
def baseU : Usage :=
  { id := "1", subscription_id := "00000000-0000-0000-0000-000000000000",
    date := 0, cost := 1 }

def baseUDoubled : Usage :=
  { baseU with
    quantity := some 0, effective_price := some 0, amortised_cost := some 0,
    total_cost := some 0, unit_price := some 0, cost := 2 }

/-! Transmitter: `send_usage` (utils/usage.py lines 210-266).  The HTTP layer
is abstracted as a function from attempt index to either an exception
(`Except.error`) or a status code (`Except.ok code`). -/

/-- Result of one `send_usage` call: `delivered`/`deliveryError` carry the
number of POSTs performed; `httpException` models an uncaught exception from
`requests.post` itself. -/
inductive SendRes where
  | delivered (posts : ℕ)
  | deliveryError (posts : ℕ)
  | httpException (posts : ℕ)
deriving DecidableEq, Repr

/-- Number of POSTs recorded in a `SendRes`. -/
def SendRes.posts : SendRes → ℕ
  | .delivered n => n
  | .deliveryError n => n
  | .httpException n => n

/-- Embedding of the `for _ in range(2)` retry loop of `send_usage`: return
on the first 200, retry the full send once on a non-200, raise
`RuntimeError` after two non-200 responses, and let exceptions from the
HTTP layer propagate immediately. -/
def send_usage (resp : ℕ → Except Unit ℕ) : SendRes :=
  match resp 0 with
  | .error _ => .httpException 1
  | .ok s =>
    if s = 200 then .delivered 1
    else
      match resp 1 with
      | .error _ => .httpException 2
      | .ok s2 => if s2 = 200 then .delivered 2 else .deliveryError 2

/-! Scheduled job drivers (usage/__init__.py lines 49-71 and
monthly_usage/__init__.py lines 76-112).  One pipeline attempt
(`get_all_usage` + `retrieve_and_send_usage`) is abstracted as an outcome:
success, a retryable `HttpResponseError`, or any other (non-retryable)
exception. -/

/-- Outcome of one Normalizer-to-Transmitter pipeline attempt. -/
inductive Outcome where
  | ok
  | retryable
  | fatal
deriving DecidableEq, Repr

/-- Result of the daily driver's inner `for _ in range(5)` loop for one day:
`calls` counts pipeline attempts, `sleeps` counts `time.sleep(60)` calls. -/
inductive DayRes where
  | success (calls sleeps : ℕ)
  | exhausted (calls sleeps : ℕ)
  | fatalStop (calls sleeps : ℕ)
deriving DecidableEq, Repr

/-- Pipeline attempts performed for one day. -/
def DayRes.calls : DayRes → ℕ
  | .success c _ => c
  | .exhausted c _ => c
  | .fatalStop c _ => c

/-- The daily driver's attempt loop: try the pipeline; `break` on success;
on `HttpResponseError` sleep 60 seconds and try again (also after the fifth
failure); any other exception propagates. -/
def dayGo (f : ℕ → Outcome) : ℕ → ℕ → ℕ → ℕ → DayRes
  | 0, _, calls, sleeps => .exhausted calls sleeps
  | n + 1, i, calls, sleeps =>
    match f i with
    | .ok => .success (calls + 1) sleeps
    | .fatal => .fatalStop (calls + 1) sleeps
    | .retryable => dayGo f n (i + 1) (calls + 1) (sleeps + 1)

/-- One day of the daily driver (usage/__init__.py lines 51-71). -/
def runDayUsage (f : ℕ → Outcome) : DayRes :=
  dayGo f 5 0 0 0

/-- Result of a whole daily-driver run: the list of days on which at least
one pipeline attempt was made, in processing order; `raised` means an
uncaught exception ended the run. -/
inductive JobRes where
  | completed (processed : List ℤ)
  | raised (processed : List ℤ)
deriving DecidableEq, Repr

/-- The daily driver's outer loop over days (usage/__init__.py lines 49-71):
a day whose five attempts all fail with `HttpResponseError` is simply left
behind and the loop continues with the next day; only a non-retryable
exception propagates. -/
def usageMain (f : ℤ → ℕ → Outcome) : List ℤ → JobRes
  | [] => .completed []
  | d :: ds =>
    match runDayUsage (f d) with
    | .fatalStop _ _ => .raised [d]
    | _ =>
      match usageMain f ds with
      | .completed p => .completed (d :: p)
      | .raised p => .raised (d :: p)

/-- Embedding of `date_range` (utils/usage.py lines 23-33): all days from
`s` to `e` inclusive, ascending. -/
def date_range (s e : ℤ) : List ℤ :=
  (List.range (e - s + 1).toNat).map (fun n => s + n)

/-- The daily driver processes `reversed(list(date_range(start, end)))`. -/
def usageDriver (f : ℤ → ℕ → Outcome) (s e : ℤ) : JobRes :=
  usageMain f (date_range s e).reverse

/-- Result of the monthly driver's retry loop. -/
inductive MonthlyRes where
  | finished (calls sleeps : ℕ)
  | runtimeError (calls sleeps : ℕ)
  | fatalRaise (calls sleeps : ℕ)
deriving DecidableEq, Repr

/-- The monthly driver's `for attempt in range(MAX_ATTEMPTS)` loop
(monthly_usage/__init__.py lines 76-112): on `HttpResponseError` at the
last attempt raise `RuntimeError` without sleeping, otherwise sleep 60
seconds and retry; other exceptions propagate. -/
def monthlyGo (f : ℕ → Outcome) : ℕ → ℕ → ℕ → ℕ → MonthlyRes
  | 0, _, calls, sleeps => .runtimeError calls sleeps
  | n + 1, i, calls, sleeps =>
    match f i with
    | .ok => .finished (calls + 1) sleeps
    | .fatal => .fatalRaise (calls + 1) sleeps
    | .retryable =>
      if n = 0 then .runtimeError (calls + 1) sleeps
      else monthlyGo f n (i + 1) (calls + 1) (sleeps + 1)

/-- The monthly driver attempts its whole date window up to 5 times. -/
def runMonthly (f : ℕ → Outcome) : MonthlyRes :=
  monthlyGo f 5 0 0 0

/-! Heap model of `compress_items` for the frame claim: records live in a
store (addresses are list indices), the input is a list of addresses,
`copy.deepcopy` allocates a fresh address at the end of the store and
`combine_items` mutates the store in place at an output address. -/

/-- Default record used for out-of-range reads. -/
def defaultUsage : Usage :=
  { id := "", subscription_id := "", date := 0, cost := 0 }

/-- Read a record from the store. -/
def storeGet (store : List Usage) (a : ℕ) : Usage :=
  store.getD a defaultUsage

/-- State of the heap-level `compress_items`: the store and the addresses of
the records owned by `ret_list`. -/
structure CState where
  store : List Usage
  retAddrs : List ℕ
deriving DecidableEq, Repr

/-- One iteration of the heap-level `compress_items` loop: find the first
`ret_list` address whose record's merge key matches, mutate the store
there, else deep-copy the item to a fresh address and append it. -/
def compressStep (s : CState) (addr : ℕ) : CState :=
  match s.retAddrs.find?
      (fun ra => decide (mergeKey (storeGet s.store ra) = mergeKey (storeGet s.store addr))) with
  | some ra =>
    { s with
      store := s.store.set ra (combine_items (storeGet s.store ra) (storeGet s.store addr)) }
  | none =>
    { store := s.store ++ [storeGet s.store addr],
      retAddrs := s.retAddrs ++ [s.store.length] }

/-- Heap-level `compress_items`: fold over the input addresses starting from
an empty `ret_list`. -/
def compressStore (store : List Usage) (addrs : List ℕ) : CState :=
  addrs.foldl compressStep { store := store, retAddrs := [] }

/-! Field sums for the conservation claim. -/

/-- Sum of a rational-valued projection over a list of records. -/
def sumBy (f : Usage → ℚ) : List Usage → ℚ
  | [] => 0
  | u :: us => f u + sumBy f us

/-- Projections of the six cost-bearing fields, unset read as 0. -/
def costOf (u : Usage) : ℚ := u.cost

/-- Quantity with unset read as 0. -/
def quantityOf (u : Usage) : ℚ := u.quantity.getD 0

/-- Effective price with unset read as 0. -/
def effectivePriceOf (u : Usage) : ℚ := u.effective_price.getD 0

/-- Amortised cost with unset read as 0. -/
def amortisedCostOf (u : Usage) : ℚ := u.amortised_cost.getD 0

/-- Total cost with unset read as 0. -/
def totalCostOf (u : Usage) : ℚ := u.total_cost.getD 0

/-- Unit price with unset read as 0. -/
def unitPriceOf (u : Usage) : ℚ := u.unit_price.getD 0

/-! Further concrete records for witnesses and counterexamples. -/

/-- A raw row with a reservation id. -/
def rawRes : Usage := { baseU with reservation_id := some "x" }

/-- The normalized form of a raw row, reservation branch. -/
def normRes (r : Usage) : Usage :=
  { r with total_cost := some r.cost, amortised_cost := some r.cost, cost := 0 }

/-- The normalized form of a raw row, no-reservation branch, applied to the
row with its reservation id removed. -/
def normNoRes (r : Usage) : Usage :=
  { r with reservation_id := none, total_cost := some r.cost, amortised_cost := some 0 }

/-- A record with `effective_price` 1. -/
def uEff1 : Usage := { baseU with effective_price := some 1, unit_price := some 0 }

/-- A record with `effective_price` 2, otherwise equal to `uEff1`. -/
def uEff2 : Usage := { baseU with effective_price := some 2, unit_price := some 0 }

/-- The result of combining `uEff1` with itself. -/
def uEff1c : Usage :=
  { baseU with
    quantity := some 0, effective_price := some 2, amortised_cost := some 0,
    total_cost := some 0, unit_price := some 0, cost := 2 }

/-! Shared helper lemmas about the Compressor. -/

/-- The merge key never touches `reservation_id`. -/
theorem mergeKey_reservation_id (u : Usage) :
    (mergeKey u).reservation_id = u.reservation_id := rfl

/-- Compressing a two-element list: merged when the keys agree, kept apart
otherwise. -/
theorem compress_pair (a b : Usage) :
    (mergeKey a = mergeKey b → compress_items [a, b] = [combine_items a b])
    ∧ (mergeKey a ≠ mergeKey b → compress_items [a, b] = [a, b]) := by
  constructor <;> intro h <;> simp [compress_items, insertItem, h]

/-- C2: the Normalizer copies the row's original cost into `total_cost` and
then splits: with a reservation id the cost is moved to `amortised_cost`
and zeroed; without one, `amortised_cost` is 0 and `cost` stays as
reported. -/
theorem c2_normalizer_reservation_split (raw r : Usage)
    (h : normalizeRaw raw = some r) :
    r.total_cost = some raw.cost
    ∧ (raw.reservation_id ≠ none → r.amortised_cost = some raw.cost ∧ r.cost = 0)
    ∧ (raw.reservation_id = none → r.amortised_cost = some 0 ∧ r.cost = raw.cost) := by
  unfold normalizeRaw at h
  by_cases hc : raw.cost < 0
  · simp [hc] at h
  · simp [hc] at h
    cases hres : raw.reservation_id with
    | some x =>
      rw [hres] at h
      subst h
      simp [hres]
    | none =>
      rw [hres] at h
      subst h
      simp [hres]

/-- C2 witness: the reservation and no-reservation branches at a concrete
row. -/
theorem c2_witness :
    (normRes rawRes).total_cost = some rawRes.cost
    ∧ (normRes rawRes).amortised_cost = some rawRes.cost
    ∧ (normRes rawRes).cost = 0
    ∧ (normNoRes baseU).amortised_cost = some 0
    ∧ (normNoRes baseU).cost = baseU.cost := by
  have h1 := c2_normalizer_reservation_split rawRes (normRes rawRes) (by decide)
  have h2 := c2_normalizer_reservation_split baseU (normNoRes baseU) (by decide)
  exact ⟨h1.1, (h1.2.1 (by decide)).1, (h1.2.1 (by decide)).2,
    (h2.2.2 (by decide)).1, (h2.2.2 (by decide)).2⟩

/-- C5: the Transmitter POSTs at most twice, returns on the first 200,
retries the full send exactly once on a non-200, raises `RuntimeError`
after two non-200 responses, and lets HTTP-layer exceptions propagate
immediately without a further POST. -/
theorem c5_transmitter_retry_ceiling (resp : ℕ → Except Unit ℕ) :
    (send_usage resp).posts ≤ 2
    ∧ (resp 0 = .ok 200 → send_usage resp = .delivered 1)
    ∧ (∀ s, resp 0 = .ok s → s ≠ 200 → resp 1 = .ok 200 → send_usage resp = .delivered 2)
    ∧ (∀ s t, resp 0 = .ok s → s ≠ 200 → resp 1 = .ok t → t ≠ 200 →
        send_usage resp = .deliveryError 2)
    ∧ (∀ e, resp 0 = .error e → send_usage resp = .httpException 1)
    ∧ (∀ s e, resp 0 = .ok s → s ≠ 200 → resp 1 = .error e →
        send_usage resp = .httpException 2) := by
  refine ⟨?_, ?_, ?_, ?_, ?_, ?_⟩
  · unfold send_usage
    cases h0 : resp 0 with
    | error e => simp [SendRes.posts]
    | ok s =>
      by_cases hs : s = 200
      · simp [hs, SendRes.posts]
      · cases h1 : resp 1 with
        | error e => simp [hs, SendRes.posts]
        | ok t => by_cases ht : t = 200 <;> simp [hs, ht, SendRes.posts]
  · intro h0
    simp [send_usage, h0]
  · intro s h0 hs h1
    simp [send_usage, h0, hs, h1]
  · intro s t h0 hs h1 ht
    simp [send_usage, h0, hs, h1, ht]
  · intro e h0
    simp [send_usage, h0]
  · intro s e h0 hs h1
    simp [send_usage, h0, hs, h1]

/-- A mock endpoint that always answers 500. -/
def respFail : ℕ → Except Unit ℕ := fun _ => .ok 500

/-- A mock endpoint that always answers 200. -/
def respOk : ℕ → Except Unit ℕ := fun _ => .ok 200

/-- C5 witness: two non-200 responses give a fatal error after exactly two
POSTs; a 200 returns after one POST. -/
theorem c5_witness :
    send_usage respFail = .deliveryError 2 ∧ send_usage respOk = .delivered 1 :=
  ⟨(c5_transmitter_retry_ceiling respFail).2.2.2.1 500 500 rfl (by decide) rfl (by decide),
   (c5_transmitter_retry_ceiling respOk).2.1 rfl⟩

/-- C1 (amended): compressing two records that agree on the merge key yields
exactly one record; the four combinable fields and also `effective_price`
and `unit_price` are the pairwise sums (unset read as 0), and every other
field keeps the shared input value. -/
theorem c1_merge_pair (a b : Usage) (h : mergeKey a = mergeKey b) :
    compress_items [a, b] =
      [{ a with
         quantity := some (a.quantity.getD 0 + b.quantity.getD 0),
         effective_price := some (a.effective_price.getD 0 + b.effective_price.getD 0),
         amortised_cost := some (a.amortised_cost.getD 0 + b.amortised_cost.getD 0),
         total_cost := some (a.total_cost.getD 0 + b.total_cost.getD 0),
         unit_price := some (a.unit_price.getD 0 + b.unit_price.getD 0),
         cost := a.cost + b.cost }] := by
  simp [compress_items, insertItem, h, combine_items]

/-- C1 witness: a concrete merged pair. -/
theorem c1_merge_pair_witness : compress_items [baseU, baseU] = [baseUDoubled] := by
  have h := c1_merge_pair baseU baseU rfl
  rw [h]
  simp [baseU, baseUDoubled]
  norm_num

/-- C1 counterexample: two identical records with `effective_price` 1
compress to a single record whose `effective_price` is 2, not the shared
input value 1, although `effective_price` is outside the combinable set. -/
theorem c1_counterexample :
    compress_items [uEff1, uEff1] = [uEff1c]
    ∧ uEff1c.effective_price = some 2
    ∧ uEff1.effective_price = some 1
    ∧ uEff1c.effective_price ≠ uEff1.effective_price := by
  refine ⟨?_, by decide, by decide, by decide⟩
  simp [compress_items, insertItem, combine_items, mergeKey, uEff1, uEff1c, baseU]
  norm_num

/-- C3 (amended): the merge key excludes exactly the four combinable fields:
records agreeing on everything else are merged (all six cost-bearing fields
summed by `combine_items`), while records differing anywhere in the key, in
particular only in `effective_price` or `unit_price`, stay separate. -/
theorem c3_merge_key_dichotomy (a b : Usage) :
    (mergeKey a = mergeKey b → compress_items [a, b] = [combine_items a b])
    ∧ (mergeKey a ≠ mergeKey b → compress_items [a, b] = [a, b]) :=
  compress_pair a b

/-- C3 witness: a merging pair and a non-merging pair. -/
theorem c3_witness :
    compress_items [baseU, baseU] = [combine_items baseU baseU]
    ∧ compress_items [uEff1, uEff2] = [uEff1, uEff2] :=
  ⟨(c3_merge_key_dichotomy baseU baseU).1 rfl,
   (c3_merge_key_dichotomy uEff1 uEff2).2 (by decide)⟩

/-- C3 counterexample: two records differing only in `effective_price` are
not merged, contradicting the claim that `effective_price` is outside the
merge key. -/
theorem c3_counterexample :
    compress_items [uEff1, uEff2] = [uEff1, uEff2] ∧ uEff1 ≠ uEff2 := by
  constructor
  · simp [compress_items, insertItem]
    intro h
    exact absurd (congrArg Usage.effective_price h) (by decide)
  · decide

/-- C6: two raw rows identical except that one carries a reservation id and
the other does not are normalized to two records that the Compressor keeps
apart, because `reservation_id` is part of the merge key. -/
theorem c6_reservation_in_merge_key (r1 : Usage) (x : String)
    (hres : r1.reservation_id = some x) (hc : 0 ≤ r1.cost) :
    retrieve_usage [r1, { r1 with reservation_id := none }] =
      some [normRes r1, normNoRes r1] ∧ normRes r1 ≠ normNoRes r1 := by
  have hc2 : ¬ r1.cost < 0 := not_lt.mpr hc
  have h1 : normalizeRaw r1 = some (normRes r1) := by
    simp [normalizeRaw, hc2, hres, normRes]
  have h2 : normalizeRaw { r1 with reservation_id := none } = some (normNoRes r1) := by
    simp [normalizeRaw, hc2, normNoRes]
  have hkey : mergeKey (normRes r1) ≠ mergeKey (normNoRes r1) := by
    intro hEq
    have := congrArg Usage.reservation_id hEq
    rw [mergeKey_reservation_id, mergeKey_reservation_id] at this
    simp [normRes, normNoRes, hres] at this
  constructor
  · simp [retrieve_usage, normalizeAll, h1, h2, compress_items, insertItem, hkey]
  · intro hEq
    have := congrArg Usage.reservation_id hEq
    simp [normRes, normNoRes, hres] at this

/-- C6 witness: a concrete reservation/no-reservation pair stays two
distinct records. -/
theorem c6_witness :
    retrieve_usage [rawRes, { rawRes with reservation_id := none }] =
      some [normRes rawRes, normNoRes rawRes] ∧ normRes rawRes ≠ normNoRes rawRes :=
  c6_reservation_in_merge_key rawRes "x" rfl (by decide)

/-! Conservation of the six cost-bearing field sums (C9). -/

/-- Inserting one item into the output list adds the item's contribution to
any field sum that `combine_items` treats additively. -/
theorem sumBy_insertItem (f : Usage → ℚ)
    (hf : ∀ a b, f (combine_items a b) = f a + f b) (item : Usage) :
    ∀ acc, sumBy f (insertItem item acc) = sumBy f acc + f item := by
  intro acc
  induction acc with
  | nil => simp [insertItem, sumBy]
  | cons r rs ih =>
    by_cases h : mergeKey r = mergeKey item
    · simp [insertItem, h, sumBy, hf]
      ring
    · simp [insertItem, h, sumBy, ih]
      ring

/-- Folding the Compressor loop over `xs` starting from `acc` adds the sum
of `xs` to the sum of `acc`. -/
theorem sumBy_compress_aux (f : Usage → ℚ)
    (hf : ∀ a b, f (combine_items a b) = f a + f b) :
    ∀ (xs acc : List Usage),
      sumBy f (xs.foldl (fun a i => insertItem i a) acc) = sumBy f acc + sumBy f xs := by
  intro xs
  induction xs with
  | nil => intro acc; simp [sumBy]
  | cons x xs ih =>
    intro acc
    simp only [List.foldl_cons, ih, sumBy_insertItem f hf x acc, sumBy]
    ring

/-- C9: compression conserves the sum of each of the six cost-bearing
fields (unset read as 0). -/
theorem c9_compression_conserves_totals (xs : List Usage) :
    sumBy costOf (compress_items xs) = sumBy costOf xs
    ∧ sumBy quantityOf (compress_items xs) = sumBy quantityOf xs
    ∧ sumBy effectivePriceOf (compress_items xs) = sumBy effectivePriceOf xs
    ∧ sumBy amortisedCostOf (compress_items xs) = sumBy amortisedCostOf xs
    ∧ sumBy totalCostOf (compress_items xs) = sumBy totalCostOf xs
    ∧ sumBy unitPriceOf (compress_items xs) = sumBy unitPriceOf xs := by
  refine ⟨?_, ?_, ?_, ?_, ?_, ?_⟩
  · simpa [compress_items, sumBy] using sumBy_compress_aux costOf (fun a b => rfl) xs []
  · simpa [compress_items, sumBy] using sumBy_compress_aux quantityOf (fun a b => rfl) xs []
  · simpa [compress_items, sumBy] using
      sumBy_compress_aux effectivePriceOf (fun a b => rfl) xs []
  · simpa [compress_items, sumBy] using
      sumBy_compress_aux amortisedCostOf (fun a b => rfl) xs []
  · simpa [compress_items, sumBy] using sumBy_compress_aux totalCostOf (fun a b => rfl) xs []
  · simpa [compress_items, sumBy] using sumBy_compress_aux unitPriceOf (fun a b => rfl) xs []

/-! Membership in the output of one Compressor step (shared by C8). -/

/-- Every record of `insertItem item acc` is an old record, the item itself,
or the combination of an old record with the item. -/
theorem mem_insertItem {s item : Usage} :
    ∀ {acc : List Usage}, s ∈ insertItem item acc →
      s ∈ acc ∨ s = item ∨ ∃ r, r ∈ acc ∧ s = combine_items r item := by
  intro acc
  induction acc with
  | nil =>
    intro h
    simp [insertItem] at h
    exact Or.inr (Or.inl h)
  | cons r rs ih =>
    intro h
    by_cases hkey : mergeKey r = mergeKey item
    · simp [insertItem, hkey] at h
      rcases h with h | h
      · exact Or.inr (Or.inr ⟨r, by simp, h⟩)
      · exact Or.inl (by simp [h])
    · simp [insertItem, hkey] at h
      rcases h with h | h
      · exact Or.inl (by simp [h])
      · rcases ih h with h1 | h1 | ⟨r2, hr2, hs⟩
        · exact Or.inl (by simp [h1])
        · exact Or.inr (Or.inl h1)
        · exact Or.inr (Or.inr ⟨r2, by simp [hr2], hs⟩)

/-- If every record of `acc` and the item have nonnegative cost, so does
every record after the insertion. -/
theorem insertItem_cost_nonneg {item : Usage} {acc : List Usage}
    (hacc : ∀ u ∈ acc, 0 ≤ u.cost) (hitem : 0 ≤ item.cost) :
    ∀ u ∈ insertItem item acc, 0 ≤ u.cost := by
  intro u hu
  rcases mem_insertItem hu with h | h | ⟨r, hr, hcomb⟩
  · exact hacc u h
  · exact h ▸ hitem
  · rw [hcomb]
    exact add_nonneg (hacc r hr) hitem

/-- Nonnegative costs are preserved by the whole Compressor fold. -/
theorem compress_aux_cost_nonneg :
    ∀ (xs acc : List Usage), (∀ u ∈ acc, 0 ≤ u.cost) → (∀ u ∈ xs, 0 ≤ u.cost) →
      ∀ u ∈ xs.foldl (fun a i => insertItem i a) acc, 0 ≤ u.cost := by
  intro xs
  induction xs with
  | nil => intro acc hacc _ u hu; exact hacc u hu
  | cons x xs ih =>
    intro acc hacc hxs u hu
    simp only [List.foldl_cons] at hu
    exact ih (insertItem x acc)
      (insertItem_cost_nonneg hacc (hxs x (by simp)))
      (fun v hv => hxs v (by simp [hv])) u hu

/-- C8: `cost` is nonnegative at every stage: a raw row with negative cost
is rejected at construction, the Normalizer's split keeps cost
nonnegative, and `combine_items` and the Compressor preserve it. -/
theorem c8_cost_invariant :
    (∀ raw : Usage, normalizeRaw raw = none ↔ raw.cost < 0)
    ∧ (∀ raw r : Usage, normalizeRaw raw = some r → 0 ≤ r.cost)
    ∧ (∀ a b : Usage, 0 ≤ a.cost → 0 ≤ b.cost → 0 ≤ (combine_items a b).cost)
    ∧ (∀ xs : List Usage, (∀ u ∈ xs, 0 ≤ u.cost) →
        ∀ u ∈ compress_items xs, 0 ≤ u.cost) := by
  refine ⟨?_, ?_, ?_, ?_⟩
  · intro raw
    by_cases hc : raw.cost < 0 <;> simp [normalizeRaw, hc]
  · intro raw r h
    unfold normalizeRaw at h
    by_cases hc : raw.cost < 0
    · simp [hc] at h
    · simp [hc] at h
      cases hres : raw.reservation_id with
      | some x =>
        rw [hres] at h
        subst h
        simp
      | none =>
        rw [hres] at h
        subst h
        simpa using not_lt.mp hc
  · intro a b ha hb
    exact add_nonneg ha hb
  · intro xs hxs u hu
    exact compress_aux_cost_nonneg xs [] (by simp) hxs u hu

/-- C8 witness: the invariant at concrete inputs. -/
theorem c8_witness :
    0 ≤ (normRes rawRes).cost
    ∧ 0 ≤ (combine_items baseU baseU).cost
    ∧ 0 ≤ baseU.cost :=
  ⟨c8_cost_invariant.2.1 rawRes (normRes rawRes) (by decide),
   c8_cost_invariant.2.2.1 baseU baseU (by decide) (by decide),
   c8_cost_invariant.2.2.2 [baseU] (by intro u hu; simp at hu; subst hu; decide)
     baseU (by simp [compress_items, insertItem])⟩

/-! Idempotence of the Compressor (C7).  Because `combine_items` also sums
`effective_price` and `unit_price`, which belong to the merge key, a merge
can change a record's merge key; idempotence only holds when those two
fields cannot drift, e.g. when they are 0 on every input record. -/

/-- The merge keys of a record list. -/
def keysOf (l : List Usage) : List Usage := l.map mergeKey

/-- Records whose `effective_price` and `unit_price` are an explicit 0. -/
def zeroPrices (u : Usage) : Prop :=
  u.effective_price = some 0 ∧ u.unit_price = some 0

instance (u : Usage) : Decidable (zeroPrices u) := by
  unfold zeroPrices
  infer_instance

/-- Combining two zero-price records does not change the merge key. -/
theorem mergeKey_combine_items (a b : Usage) (ha : zeroPrices a) (hb : zeroPrices b) :
    mergeKey (combine_items a b) = mergeKey a := by
  obtain ⟨ha1, ha2⟩ := ha
  obtain ⟨hb1, hb2⟩ := hb
  simp [mergeKey, combine_items, ha1, ha2, hb1, hb2]

/-- Combining two zero-price records gives a zero-price record. -/
theorem zeroPrices_combine_items (a b : Usage) (ha : zeroPrices a) (hb : zeroPrices b) :
    zeroPrices (combine_items a b) := by
  obtain ⟨ha1, ha2⟩ := ha
  obtain ⟨hb1, hb2⟩ := hb
  exact ⟨by simp [combine_items, ha1, hb1], by simp [combine_items, ha2, hb2]⟩

/-- When no output record matches the item's merge key, insertion is an
append. -/
theorem insertItem_of_no_match (item : Usage) :
    ∀ acc, (∀ r ∈ acc, mergeKey r ≠ mergeKey item) → insertItem item acc = acc ++ [item] := by
  intro acc
  induction acc with
  | nil => intro _; simp [insertItem]
  | cons r rs ih =>
    intro h
    rw [insertItem, if_neg (h r (by simp))]
    simp [ih (fun r2 hr2 => h r2 (by simp [hr2]))]

/-- Inserting a zero-price item into a zero-price output list either leaves
the key list unchanged (a merge happened) or appends the item's key (no
match existed). -/
theorem keysOf_insertItem (item : Usage) (hitem : zeroPrices item) :
    ∀ acc, (∀ u ∈ acc, zeroPrices u) →
      keysOf (insertItem item acc) = keysOf acc
      ∨ keysOf (insertItem item acc) = keysOf acc ++ [mergeKey item] := by
  intro acc
  induction acc with
  | nil => intro _; simp [insertItem, keysOf]
  | cons r rs ih =>
    intro hacc
    by_cases hkey : mergeKey r = mergeKey item
    · left
      rw [insertItem, if_pos hkey]
      simp [keysOf, mergeKey_combine_items r item (hacc r (by simp)) hitem]
    · rw [insertItem, if_neg hkey]
      rcases ih (fun u hu => hacc u (by simp [hu])) with h | h
      · left
        simp [keysOf] at h ⊢
        exact h
      · right
        simp [keysOf] at h ⊢
        exact h

/-- Insertion preserves the zero-price property of the output list. -/
theorem zeroPrices_insertItem {item : Usage} {acc : List Usage}
    (hacc : ∀ u ∈ acc, zeroPrices u) (hitem : zeroPrices item) :
    ∀ u ∈ insertItem item acc, zeroPrices u := by
  intro u hu
  rcases mem_insertItem hu with h | h | ⟨r, hr, hcomb⟩
  · exact hacc u h
  · exact h ▸ hitem
  · exact hcomb ▸ zeroPrices_combine_items r item (hacc r hr) hitem

/-- When a match exists, insertion combines in place and the number of
output records does not change. -/
theorem length_insertItem_of_match (item : Usage) :
    ∀ acc : List Usage, (∃ r ∈ acc, mergeKey r = mergeKey item) →
      (insertItem item acc).length = acc.length := by
  intro acc
  induction acc with
  | nil => intro h; simp at h
  | cons r2 rs ih =>
    intro h
    by_cases hk2 : mergeKey r2 = mergeKey item
    · rw [insertItem, if_pos hk2]
      simp
    · rw [insertItem, if_neg hk2]
      obtain ⟨r, hr, hrk⟩ := h
      rcases List.mem_cons.mp hr with h2 | h2
      · exact absurd (h2 ▸ hrk) hk2
      · simp [ih ⟨r, h2, hrk⟩]

/-- Insertion preserves distinctness of the output list's merge keys. -/
theorem nodup_keysOf_insertItem {item : Usage} {acc : List Usage}
    (hacc : ∀ u ∈ acc, zeroPrices u) (hitem : zeroPrices item)
    (hnd : (keysOf acc).Nodup) : (keysOf (insertItem item acc)).Nodup := by
  by_cases hmatch : ∀ r ∈ acc, mergeKey r ≠ mergeKey item
  · rw [insertItem_of_no_match item acc hmatch]
    rw [keysOf, List.map_append]
    refine List.nodup_append.mpr ⟨hnd, by simp, ?_⟩
    intro k hk1 hk2
    simp [keysOf] at hk1 hk2
    obtain ⟨r, hr, hrk⟩ := hk1
    exact hmatch r hr (by rw [hrk, hk2])
  · rcases keysOf_insertItem item hitem acc hacc with h | h
    · rw [h]; exact hnd
    · push_neg at hmatch
      obtain ⟨r, hr, hrk⟩ := hmatch
      exfalso
      have hlen := congrArg List.length h
      have h1 : (insertItem item acc).length = acc.length :=
        length_insertItem_of_match item acc ⟨r, hr, hrk⟩
      simp [keysOf, h1] at hlen

/-- The Compressor fold keeps the output list zero-price and its merge keys
distinct. -/
theorem compress_aux_nodup :
    ∀ (xs acc : List Usage), (∀ u ∈ acc, zeroPrices u) → (∀ u ∈ xs, zeroPrices u) →
      (keysOf acc).Nodup →
      (∀ u ∈ xs.foldl (fun a i => insertItem i a) acc, zeroPrices u)
      ∧ (keysOf (xs.foldl (fun a i => insertItem i a) acc)).Nodup := by
  intro xs
  induction xs with
  | nil => intro acc hacc _ hnd; exact ⟨hacc, hnd⟩
  | cons x xs ih =>
    intro acc hacc hxs hnd
    simp only [List.foldl_cons]
    exact ih (insertItem x acc)
      (zeroPrices_insertItem hacc (hxs x (by simp)))
      (fun u hu => hxs u (by simp [hu]))
      (nodup_keysOf_insertItem hacc (hxs x (by simp)) hnd)

/-- A list with pairwise-distinct merge keys is a fixed point of the
Compressor fold. -/
theorem compress_of_nodup_keys :
    ∀ (ys acc : List Usage), (keysOf (acc ++ ys)).Nodup →
      ys.foldl (fun a i => insertItem i a) acc = acc ++ ys := by
  intro ys
  induction ys with
  | nil => intro acc _; simp
  | cons y ys ih =>
    intro acc h
    have hm : ∀ r ∈ acc, mergeKey r ≠ mergeKey y := by
      intro r hr hEq
      rw [keysOf, List.map_append] at h
      rcases List.nodup_append.mp h with ⟨_, _, hdisj⟩
      exact hdisj (List.mem_map_of_mem mergeKey hr) (by simp [hEq])
    rw [List.foldl_cons, insertItem_of_no_match y acc hm, ih (acc ++ [y]) (by simpa using h)]
    simp

/-- C7 (amended): on lists whose records all carry an explicit 0 in
`effective_price` and `unit_price`, the Compressor is idempotent. -/
theorem c7_idempotent_on_zero_prices (xs : List Usage)
    (h : ∀ u ∈ xs, zeroPrices u) :
    compress_items (compress_items xs) = compress_items xs := by
  obtain ⟨_, hnd⟩ := compress_aux_nodup xs [] (by simp) h (by simp [keysOf])
  have := compress_of_nodup_keys (compress_items xs) [] (by simpa [compress_items] using hnd)
  simpa [compress_items] using this

/-- A zero-price concrete record. -/
def uZero : Usage := { baseU with effective_price := some 0, unit_price := some 0 }

/-- C7 witness: idempotence at a concrete zero-price list. -/
theorem c7_witness :
    compress_items (compress_items [uZero, uZero]) = compress_items [uZero, uZero] :=
  c7_idempotent_on_zero_prices [uZero, uZero] (by decide)

/-- C7 counterexample: with a nonzero `effective_price`, merging drifts the
merge key, and a second Compressor pass merges records the first pass left
apart: `[uEff1, uEff2, uEff1]` compresses to two records whose keys have
become equal, so compressing again yields one record. -/
theorem c7_counterexample :
    compress_items (compress_items [uEff1, uEff2, uEff1]) ≠
      compress_items [uEff1, uEff2, uEff1] := by
  have hne : mergeKey uEff1 ≠ mergeKey uEff2 := by decide
  have hkey : mergeKey uEff1c = mergeKey uEff2 := by decide
  have h1 : compress_items [uEff1, uEff2, uEff1] = [uEff1c, uEff2] := by
    simp [compress_items, insertItem, hne, combine_items, uEff1, uEff2, uEff1c, baseU]
    norm_num
  have h2 : compress_items [uEff1c, uEff2] = [combine_items uEff1c uEff2] := by
    simp [compress_items, insertItem, hkey]
  rw [h1, h2]
  simp

/-! Job-driver retry policy (C4). -/

/-- The daily day loop never propagates when the pipeline only succeeds or
fails retryably. -/
theorem dayGo_not_fatalStop (f : ℕ → Outcome) (hf : ∀ i, f i ≠ .fatal) :
    ∀ n i c s c2 s2, dayGo f n i c s ≠ .fatalStop c2 s2 := by
  intro n
  induction n with
  | zero => intro i c s c2 s2; simp [dayGo]
  | succ n ih =>
    intro i c s c2 s2
    rw [dayGo]
    cases hi : f i with
    | ok => simp
    | fatal => exact absurd hi (hf i)
    | retryable => exact ih (i + 1) (c + 1) (s + 1) c2 s2

/-- The day loop makes at most `n` further pipeline calls. -/
theorem dayGo_calls_le (f : ℕ → Outcome) :
    ∀ n i c s, (dayGo f n i c s).calls ≤ c + n := by
  intro n
  induction n with
  | zero => intro i c s; simp [dayGo, DayRes.calls]
  | succ n ih =>
    intro i c s
    rw [dayGo]
    cases f i with
    | ok => simp [DayRes.calls]
    | fatal => simp [DayRes.calls]
    | retryable => calc (dayGo f n (i + 1) (c + 1) (s + 1)).calls
          ≤ (c + 1) + n := ih (i + 1) (c + 1) (s + 1)
        _ ≤ c + (n + 1) := by omega

/-- C4 (amended): the daily driver tries each day at most 5 times, sleeping
60 seconds after each retryable failure; a day whose five attempts all fail
retryably is abandoned and the driver continues to every remaining day
without raising; a non-retryable error propagates immediately.  The monthly
driver raises `RuntimeError` after its fifth retryable failure. -/
theorem c4_driver_retry_policy :
    (∀ f : ℕ → Outcome, (∀ i, f i = .retryable) → runDayUsage f = .exhausted 5 5)
    ∧ (∀ (days : List ℤ) (f : ℤ → ℕ → Outcome),
        (∀ d i, f d i ≠ .fatal) → usageMain f days = .completed days)
    ∧ (∀ f : ℕ → Outcome, f 0 = .fatal → runDayUsage f = .fatalStop 1 0)
    ∧ (∀ f : ℕ → Outcome, (runDayUsage f).calls ≤ 5)
    ∧ (∀ f : ℕ → Outcome, (∀ i, f i = .retryable) → runMonthly f = .runtimeError 5 4) := by
  refine ⟨?_, ?_, ?_, ?_, ?_⟩
  · intro f h
    simp [runDayUsage, dayGo, h 0, h 1, h 2, h 3, h 4]
  · intro days f h
    induction days with
    | nil => simp [usageMain]
    | cons d ds ih =>
      rw [usageMain]
      cases hday : runDayUsage (f d) with
      | fatalStop c s => exact absurd hday (dayGo_not_fatalStop (f d) (h d) 5 0 0 0 c s)
      | success c s => simp [ih]
      | exhausted c s => simp [ih]
  · intro f h
    simp [runDayUsage, dayGo, h]
  · intro f
    exact dayGo_calls_le f 5 0 0 0
  · intro f h
    simp [runMonthly, monthlyGo, h 0, h 1, h 2, h 3, h 4]

/-- A pipeline that fails with `HttpResponseError` on every attempt of every
day. -/
def fAllRetry : ℤ → ℕ → Outcome := fun _ _ => .retryable

/-- C4 witness: the amended policy at concrete instances. -/
theorem c4_witness :
    runDayUsage (fAllRetry 1) = .exhausted 5 5
    ∧ usageMain fAllRetry [1, 0] = .completed [1, 0]
    ∧ runMonthly (fAllRetry 0) = .runtimeError 5 4 :=
  ⟨c4_driver_retry_policy.1 (fAllRetry 1) (fun _ => rfl),
   c4_driver_retry_policy.2.1 [1, 0] fAllRetry (fun _ _ => by simp [fAllRetry]),
   c4_driver_retry_policy.2.2.2.2 (fAllRetry 0) (fun _ => rfl)⟩

/-- C4 counterexample: on a two-day window where every attempt fails with
the retryable error, the first day exhausts all five attempts, yet the
daily driver does not propagate anything and still processes the remaining
(earlier) day. -/
theorem c4_counterexample :
    runDayUsage (fAllRetry 1) = .exhausted 5 5
    ∧ usageDriver fAllRetry 0 1 = .completed [1, 0] := by
  constructor
  · simp [runDayUsage, dayGo, fAllRetry]
  · simp [usageDriver, date_range]
    decide

/-! Frame property of the heap-level Compressor (C10). -/

/-- Reading inside the taken prefix of a list sees the original list. -/
theorem getD_take_of_lt {α : Type} (d : α) :
    ∀ (l : List α) (n i : ℕ), i < n → (l.take n).getD i d = l.getD i d := by
  intro l
  induction l with
  | nil => intro n i _; simp
  | cons a l ih =>
    intro n i h
    cases n with
    | zero => omega
    | succ n =>
      cases i with
      | zero => simp
      | succ i => simpa using ih n i (by omega)

/-- Writing at or beyond position `n` leaves the first `n` elements
untouched. -/
theorem take_set_of_le {α : Type} (a : α) :
    ∀ (l : List α) (i n : ℕ), n ≤ i → (l.set i a).take n = l.take n := by
  intro l
  induction l with
  | nil => intro i n _; simp
  | cons b l ih =>
    intro i n h
    cases i with
    | zero =>
      have : n = 0 := Nat.le_zero.mp h
      simp [this]
    | succ i =>
      cases n with
      | zero => simp
      | succ n =>
        simp only [List.set_cons_succ, List.take_succ_cons]
        rw [ih i n (by omega)]

/-- Invariant of the heap-level Compressor: the initial store is an
untouched prefix and every `ret_list` address is a fresh allocation. -/
def StoreUntouched (store0 : List Usage) (s : CState) : Prop :=
  s.store.take store0.length = store0
  ∧ store0.length ≤ s.store.length
  ∧ ∀ b ∈ s.retAddrs, store0.length ≤ b

/-- One Compressor iteration preserves the store invariant: a merge mutates
only a fresh address, a copy allocates at the end. -/
theorem compressStep_invariant (store0 : List Usage) (s : CState) (addr : ℕ)
    (h : StoreUntouched store0 s) : StoreUntouched store0 (compressStep s addr) := by
  obtain ⟨h1, h2, h3⟩ := h
  unfold compressStep
  cases hfind : s.retAddrs.find?
      (fun ra => decide (mergeKey (storeGet s.store ra) = mergeKey (storeGet s.store addr))) with
  | some ra =>
    have hra : ra ∈ s.retAddrs := List.mem_of_find?_eq_some hfind
    refine ⟨?_, ?_, h3⟩
    · rw [take_set_of_le _ _ _ _ (h3 ra hra)]
      exact h1
    · simpa using h2
  | none =>
    refine ⟨?_, ?_, ?_⟩
    · rw [List.take_append_of_le_length h2]
      exact h1
    · simp
      omega
    · intro b hb
      simp at hb
      rcases hb with hb | hb
      · exact h3 b hb
      · omega

/-- The invariant holds through the whole fold. -/
theorem compressStore_invariant (store0 : List Usage) :
    ∀ (addrs : List ℕ) (s : CState), StoreUntouched store0 s →
      StoreUntouched store0 (addrs.foldl compressStep s) := by
  intro addrs
  induction addrs with
  | nil => intro s h; exact h
  | cons a as ih => intro s h; exact ih _ (compressStep_invariant store0 s a h)

/-- C10: the heap-level Compressor never mutates its input: the initial
store survives as an untouched prefix, every output address is a fresh
allocation (a deep copy), and in particular every in-range input address
still holds its original record and is never an output address. -/
theorem c10_compress_frame (store : List Usage) (addrs : List ℕ) :
    (compressStore store addrs).store.take store.length = store
    ∧ (∀ b ∈ (compressStore store addrs).retAddrs, store.length ≤ b)
    ∧ (∀ a ∈ addrs, a < store.length →
        storeGet (compressStore store addrs).store a = storeGet store a
        ∧ a ∉ (compressStore store addrs).retAddrs) := by
  simp only [compressStore]
  obtain ⟨h1, h2, h3⟩ :=
    compressStore_invariant store addrs { store := store, retAddrs := [] }
      ⟨by simp, by simp, by simp⟩
  refine ⟨h1, h3, ?_⟩
  intro a _ ha
  constructor
  · unfold storeGet
    nth_rewrite 1 [← getD_take_of_lt defaultUsage _ store.length a ha]
    rw [h1]
  · intro hmem
    exact absurd (h3 a hmem) (by omega)

/-- C10 witness: at a concrete store, the input record is unchanged and not
aliased by the output. -/
theorem c10_witness :
    storeGet (compressStore [baseU] [0]).store 0 = storeGet [baseU] 0
    ∧ 0 ∉ (compressStore [baseU] [0]).retAddrs :=
  (c10_compress_frame [baseU] [0]).2.2 0 (by decide) (by decide)

end RCTab
